import Mathlib

/-! Shallow embedding of the face-matching and identity-confirmation engine
of the timesheet web application, translated from
src/web/src/lib/faceDetection.ts (detection pipeline, quality and liveness
scoring, descriptor matcher, consecutive-match confirmation tracker, and
descriptor serialization).

Numbers are JavaScript IEEE doubles in the source; every value such a
double can take is a rational number, so numeric state is modelled with
rationals.  The functions the source calls that live outside this
repository, namely Math.sqrt, Math.atan2, the global parseInt,
Number.prototype.toString and euclideanDistance of the face-api.js
library, are taken as explicit function parameters; where a claim needs a
defining property of one of them (for example that parseInt inverts
toString on canonical decimal keys) it is assumed as a hypothesis. -/

namespace FaceDetection

/-- Match threshold from the source; lower means stricter matching. -/
def MATCH_THRESHOLD : ℚ := 0.55

/-- Minimum consecutive matches required before confirming identity. -/
def REQUIRED_CONSECUTIVE_MATCHES : Nat := 1

/-- Minimum face area in pixels squared. -/
def MIN_FACE_AREA : ℚ := 10000

/-- Minimum detection confidence. -/
def MIN_DETECTION_CONFIDENCE : ℚ := 0.5

/-- Minimum liveness score. -/
def MIN_LIVENESS_SCORE : ℚ := 0.4

/-- A two dimensional landmark point, as produced by the external detector. -/
structure JSPoint where
  x : ℚ
  y : ℚ
deriving DecidableEq

/-- Bounding box of a detection; the core reads only width and height. -/
structure Box where
  width : ℚ
  height : ℚ
deriving DecidableEq

/-- One raw detection produced by the external face detector: confidence
score, bounding box, the landmark clusters the scorers read, and the
descriptor vector. -/
structure Detection where
  score : ℚ
  box : Box
  leftEye : List JSPoint
  rightEye : List JSPoint
  nose : List JSPoint
  mouth : List JSPoint
  descriptor : List ℚ
deriving DecidableEq

/-- getCenterPoint from the source: centroid of a landmark cluster. -/
def getCenterPoint (points : List JSPoint) : JSPoint :=
  let sum := points.foldl (fun (acc : JSPoint) p => ⟨acc.x + p.x, acc.y + p.y⟩)
    (⟨0, 0⟩ : JSPoint)
  ⟨sum.x / (points.length : ℚ), sum.y / (points.length : ℚ)⟩

/-- distanceSimple from the source; sqrt is the external Math.sqrt. -/
def distanceSimple (sqrt : ℚ → ℚ) (p1 p2 : JSPoint) : ℚ :=
  sqrt ((p2.x - p1.x) ^ 2 + (p2.y - p1.y) ^ 2)

/-- distance from the source (textually identical to distanceSimple; the
source keeps two copies, one typed for faceapi points). -/
def distance (sqrt : ℚ → ℚ) (p1 p2 : JSPoint) : ℚ :=
  sqrt ((p2.x - p1.x) ^ 2 + (p2.y - p1.y) ^ 2)

/-- getMouthOpenness from the source.  Indexing past the end of the point
list, which in the source would produce undefined, is modelled by a
default point. -/
def getMouthOpenness (sqrt : ℚ → ℚ) (mouthPoints : List JSPoint) : ℚ :=
  let topLip := mouthPoints.getD 14 ⟨0, 0⟩
  let bottomLip := mouthPoints.getD 18 ⟨0, 0⟩
  let leftCorner := mouthPoints.getD 0 ⟨0, 0⟩
  let rightCorner := mouthPoints.getD 6 ⟨0, 0⟩
  let mouthHeight := distance sqrt topLip bottomLip
  let mouthWidth := distance sqrt leftCorner rightCorner
  mouthHeight / mouthWidth

/-- getEyeOpenness from the source: eye aspect ratio. -/
def getEyeOpenness (sqrt : ℚ → ℚ) (eyePoints : List JSPoint) : ℚ :=
  let vertical1 := distance sqrt (eyePoints.getD 1 ⟨0, 0⟩) (eyePoints.getD 5 ⟨0, 0⟩)
  let vertical2 := distance sqrt (eyePoints.getD 2 ⟨0, 0⟩) (eyePoints.getD 4 ⟨0, 0⟩)
  let horizontal := distance sqrt (eyePoints.getD 0 ⟨0, 0⟩) (eyePoints.getD 3 ⟨0, 0⟩)
  (vertical1 + vertical2) / (2 * horizontal)

/-- calculateQualityScore from the source. -/
def calculateQualityScore (sqrt : ℚ → ℚ) (atan2 : ℚ → ℚ → ℚ) (detection : Detection) : ℚ :=
  let score : ℚ := 1.0
  let score := score * detection.score
  let faceArea := detection.box.width * detection.box.height
  let idealArea : ℚ := 40000
  let sizeScore := min (faceArea / idealArea) 1.0
  let score := score * (0.5 + sizeScore * 0.5)
  let leftEyeCenter := getCenterPoint detection.leftEye
  let rightEyeCenter := getCenterPoint detection.rightEye
  let eyeAngle :=
    |atan2 (rightEyeCenter.y - leftEyeCenter.y) (rightEyeCenter.x - leftEyeCenter.x)|
  let score := if eyeAngle > 0.2 then score * 0.7 else score
  let noseTop := detection.nose.getD 0 ⟨0, 0⟩
  let eyeMidpoint : JSPoint :=
    ⟨(leftEyeCenter.x + rightEyeCenter.x) / 2, (leftEyeCenter.y + rightEyeCenter.y) / 2⟩
  let horizontalOffset := |noseTop.x - eyeMidpoint.x|
  let eyeDistance := distanceSimple sqrt leftEyeCenter rightEyeCenter
  let score := if horizontalOffset > eyeDistance * 0.3 then score * 0.6 else score
  min score 1.0

/-- calculateLivenessScore from the source. -/
def calculateLivenessScore (sqrt : ℚ → ℚ) (detection : Detection) : ℚ :=
  let score := detection.score
  let faceArea := detection.box.width * detection.box.height
  let score := if faceArea < MIN_FACE_AREA then score * 0.5 else score
  let leftEyeOpenness := getEyeOpenness sqrt detection.leftEye
  let rightEyeOpenness := getEyeOpenness sqrt detection.rightEye
  let score :=
    if leftEyeOpenness < 0.2 ∨ rightEyeOpenness < 0.2 then score * 0.5
    else if leftEyeOpenness < 0.25 ∨ rightEyeOpenness < 0.25 then score * 0.7
    else score
  let eyeSymmetry :=
    min leftEyeOpenness rightEyeOpenness / max leftEyeOpenness rightEyeOpenness
  let score := if eyeSymmetry < 0.5 then score * 0.8 else score
  let mouthOpenness := getMouthOpenness sqrt detection.mouth
  let score := if mouthOpenness > 0.5 then score * 0.8 else score
  min score 1.0

/-- Per frame outcome record of detectFace. -/
structure FaceDetectionResult where
  detected : Bool
  descriptor : Option (List ℚ)
  livenessScore : ℚ
  qualityScore : ℚ
  message : String
deriving DecidableEq

/-- detectFace from the source, as a pure function of the detection the
external detector returned for the frame (none when no face was found).
The asynchronous model loading that precedes the detector call touches no
state read here and is outside this embedding. -/
def detectFace (sqrt : ℚ → ℚ) (atan2 : ℚ → ℚ → ℚ) (detection : Option Detection) :
    FaceDetectionResult :=
  match detection with
  | none =>
      { detected := false, descriptor := none, livenessScore := 0, qualityScore := 0,
        message := "No face detected. Please position your face in the frame." }
  | some detection =>
      if detection.score < MIN_DETECTION_CONFIDENCE then
        { detected := true, descriptor := none, livenessScore := 0,
          qualityScore := detection.score,
          message := "Face unclear. Please improve lighting and hold still." }
      else
        let faceArea := detection.box.width * detection.box.height
        if faceArea < MIN_FACE_AREA then
          { detected := true, descriptor := none, livenessScore := 0, qualityScore := 0.3,
            message := "Please move closer to the camera." }
        else
          let qualityScore := calculateQualityScore sqrt atan2 detection
          let livenessScore := calculateLivenessScore sqrt detection
          if qualityScore < 0.5 then
            { detected := true, descriptor := none, livenessScore := livenessScore,
              qualityScore := qualityScore,
              message := "Please face the camera directly and hold still." }
          else if livenessScore < MIN_LIVENESS_SCORE then
            { detected := true, descriptor := none, livenessScore := livenessScore,
              qualityScore := qualityScore,
              message := "Please keep your eyes open and look at the camera." }
          else
            { detected := true, descriptor := some detection.descriptor,
              livenessScore := livenessScore, qualityScore := qualityScore,
              message := "Face verified successfully!" }

/-- compareFaceDescriptors from the source: it delegates to the external
face-api euclideanDistance, taken here as the parameter. -/
def compareFaceDescriptors (euclideanDistance : List ℚ → List ℚ → ℚ)
    (descriptor1 descriptor2 : List ℚ) : ℚ :=
  euclideanDistance descriptor1 descriptor2

/-- MatchResult from the source. -/
structure MatchResult where
  employeeId : String
  distance : ℚ
  confidence : ℚ
deriving DecidableEq

/-- One roster entry as consumed by findMatchingEmployee: employee id and
an optional stored face encoding (a string keyed index to value map,
modelled as an association list in assignment order). -/
structure RosterEntry where
  id : String
  face_encoding : Option (List (String × ℚ))
deriving DecidableEq

/-- The stored-encoding reconstruction done inline in findMatchingEmployee:
take the keys of the map, sort them numerically ascending via the external
parseInt (the parameter pInt), and read the values along the sorted keys. -/
def reconstructDescriptor (pInt : String → Int) (enc : List (String × ℚ)) : List ℚ :=
  ((enc.map Prod.fst).mergeSort (fun a b => decide (pInt a ≤ pInt b))).map
    (fun key => (enc.lookup key).getD 0)

/-- Loop state of findMatchingEmployee: current best match and second best
distance, where none models the initial JavaScript Infinity. -/
structure MatchScan where
  bestMatch : Option MatchResult
  secondBestDistance : Option ℚ
deriving DecidableEq

/-- The comparison dist < secondBestDistance of the source, with none
playing Infinity. -/
def ltSecondBest (d : ℚ) : Option ℚ → Bool
  | none => true
  | some s => decide (d < s)

/-- Body of the for loop of findMatchingEmployee for one roster entry. -/
def matchStep (pInt : String → Int) (dist : List ℚ → List ℚ → ℚ) (captured : List ℚ)
    (st : MatchScan) (employee : RosterEntry) : MatchScan :=
  match employee.face_encoding with
  | none => st
  | some enc =>
      let storedDescriptor := reconstructDescriptor pInt enc
      let d := compareFaceDescriptors dist captured storedDescriptor
      if d < MATCH_THRESHOLD then
        match st.bestMatch with
        | none =>
            { bestMatch :=
                some { employeeId := employee.id
                       distance := d
                       confidence := max 0 ((MATCH_THRESHOLD - d) / MATCH_THRESHOLD) }
              secondBestDistance := st.secondBestDistance }
        | some b =>
            if d < b.distance then
              { bestMatch :=
                  some { employeeId := employee.id
                         distance := d
                         confidence := max 0 ((MATCH_THRESHOLD - d) / MATCH_THRESHOLD) }
                secondBestDistance := some b.distance }
            else if ltSecondBest d st.secondBestDistance then
              { st with secondBestDistance := some d }
            else st
      else st

/-- findMatchingEmployee from the source.  The parameter dist is the
external euclideanDistance; pInt is the external parseInt used when
reconstructing stored encodings. -/
def findMatchingEmployee (pInt : String → Int) (dist : List ℚ → List ℚ → ℚ)
    (capturedDescriptor : List ℚ) (employees : List RosterEntry) : Option MatchResult :=
  let st := employees.foldl (matchStep pInt dist capturedDescriptor) ⟨none, none⟩
  match st.bestMatch, st.secondBestDistance with
  | some b, some s =>
      if s - b.distance < 0.1 then some { b with confidence := b.confidence * 0.5 }
      else some b
  | some b, none => some b
  | none, _ => none

/-- Output record of ConsecutiveMatchTracker.addMatch. -/
structure TrackOutput where
  confirmed : Bool
  employeeId : Option String
  streak : Nat
deriving DecidableEq

/-- State of a ConsecutiveMatchTracker: recent match history and the
configured number of required consecutive matches.  The constructor of the
source always starts with an empty history.  The history field is named
matches in the source; matches is a reserved word here, so the field is
called matchHistory. -/
structure ConsecutiveMatchTracker where
  matchHistory : List String
  requiredMatches : Nat
deriving DecidableEq

/-- addMatch from the source, as a pure state transformer. -/
def addMatch (t : ConsecutiveMatchTracker) (employeeId : Option String) :
    TrackOutput × ConsecutiveMatchTracker :=
  match employeeId with
  | none =>
      ({ confirmed := false, employeeId := none, streak := 0 },
       { t with matchHistory := [] })
  | some id =>
      if t.matchHistory ≠ [] ∧ t.matchHistory.getLast? ≠ some id then
        ({ confirmed := false, employeeId := some id, streak := 1 },
         { t with matchHistory := [id] })
      else
        let pushed := t.matchHistory ++ [id]
        let trimmed :=
          if t.requiredMatches + 2 < pushed.length then
            pushed.drop (pushed.length - (t.requiredMatches + 2))
          else pushed
        ({ confirmed := decide (t.requiredMatches ≤ trimmed.length),
           employeeId := some id, streak := trimmed.length },
         { t with matchHistory := trimmed })

/-- reset from the source. -/
def reset (t : ConsecutiveMatchTracker) : ConsecutiveMatchTracker :=
  { t with matchHistory := [] }

/-- getStreak from the source. -/
def getStreak (t : ConsecutiveMatchTracker) : Nat :=
  t.matchHistory.length

/-- One call made to a tracker instance during a session. -/
inductive TrackerEvent where
  | add (employeeId : Option String)
  | reset
deriving DecidableEq

/-- Apply one tracker call to the state. -/
def applyEvent (t : ConsecutiveMatchTracker) : TrackerEvent → ConsecutiveMatchTracker
  | TrackerEvent.add id => (addMatch t id).2
  | TrackerEvent.reset => reset t

/-- Run a sequence of tracker calls from a given state. -/
def runEvents (t : ConsecutiveMatchTracker) : List TrackerEvent → ConsecutiveMatchTracker
  | [] => t
  | e :: rest => runEvents (applyEvent t e) rest

/-- descriptorToObject from the source: serialize a descriptor into a
string keyed index to value map, one assignment per index in order; toStr
is the external Number.prototype.toString. -/
def descriptorToObject (toStr : Nat → String) (descriptor : List ℚ) : List (String × ℚ) :=
  descriptor.enum.map (fun p => (toStr p.1, p.2))

/-- Distance of the query to one roster entry, when the entry has a stored
encoding. -/
def entryDist (pInt : String → Int) (dist : List ℚ → List ℚ → ℚ) (captured : List ℚ)
    (e : RosterEntry) : Option ℚ :=
  e.face_encoding.map (fun enc => dist captured (reconstructDescriptor pInt enc))

/-- Distances of the roster entries that have a stored encoding and lie
strictly below the match threshold, in roster order. -/
def belowDists (pInt : String → Int) (dist : List ℚ → List ℚ → ℚ) (captured : List ℚ)
    (es : List RosterEntry) : List ℚ :=
  es.filterMap (fun e =>
    match entryDist pInt dist captured e with
    | some d => if d < MATCH_THRESHOLD then some d else none
    | none => none)

/-- The absolute eye to eye tilt angle read by the quality scorer. -/
def eyeTiltAngle (atan2 : ℚ → ℚ → ℚ) (d : Detection) : ℚ :=
  let lc := getCenterPoint d.leftEye
  let rc := getCenterPoint d.rightEye
  |atan2 (rc.y - lc.y) (rc.x - lc.x)|

/-- Horizontal offset of the nose tip from the eye midpoint, read by the
quality scorer. -/
def noseOffset (d : Detection) : ℚ :=
  let lc := getCenterPoint d.leftEye
  let rc := getCenterPoint d.rightEye
  |(d.nose.getD 0 ⟨0, 0⟩).x - (lc.x + rc.x) / 2|

/-- Inter eye distance read by the quality scorer. -/
def eyeDistance (sqrt : ℚ → ℚ) (d : Detection) : ℚ :=
  distanceSimple sqrt (getCenterPoint d.leftEye) (getCenterPoint d.rightEye)

/-- The size factor of the quality score. -/
def sizeFactor (d : Detection) : ℚ :=
  0.5 + 0.5 * min (d.box.width * d.box.height / 40000) 1

/-- All entries of a match history carry one and the same identifier. -/
def allSame (l : List String) : Prop :=
  ∀ a ∈ l, ∀ b ∈ l, a = b

/-- Characterization of the second best distance slot relative to the
remainder of the below-threshold distances once one copy of the best
distance is removed: none means the remainder is empty, some s means s is
a least element of the remainder. -/
def secondInv : Option ℚ → List ℚ → Prop
  | none, rest => rest = []
  | some s, rest => s ∈ rest ∧ ∀ x ∈ rest, s ≤ x

/-- Invariant of the findMatchingEmployee loop after scanning a roster
segment es: the best match, when present, is a witnessed least
below-threshold distance with the unadjusted confidence, and the second
best slot is a least element of the remaining below-threshold distances. -/
def scanInv (pInt : String → Int) (dist : List ℚ → List ℚ → ℚ) (captured : List ℚ)
    (es : List RosterEntry) (st : MatchScan) : Prop :=
  match st.bestMatch with
  | none => belowDists pInt dist captured es = [] ∧ st.secondBestDistance = none
  | some b =>
      b.distance < MATCH_THRESHOLD ∧
      b.confidence = max 0 ((MATCH_THRESHOLD - b.distance) / MATCH_THRESHOLD) ∧
      (∃ e ∈ es, ∃ enc, e.face_encoding = some enc ∧ e.id = b.employeeId ∧
        dist captured (reconstructDescriptor pInt enc) = b.distance) ∧
      ∃ rest, (belowDists pInt dist captured es).Perm (b.distance :: rest) ∧
        (∀ x ∈ rest, b.distance ≤ x) ∧ secondInv st.secondBestDistance rest

/-- Concrete stand-in for Math.sqrt used to instantiate witnesses. -/
def wSqrt : ℚ → ℚ := fun _ => 0

/-- Concrete stand-in for Math.atan2 used to instantiate witnesses. -/
def wAtan2 : ℚ → ℚ → ℚ := fun _ _ => 0

/-- Concrete stand-in for parseInt used to instantiate witnesses. -/
def wPInt : String → Int := fun s => (s.length : Int)

/-- Concrete stand-in for Number.prototype.toString used to instantiate
witnesses; it round trips with wPInt. -/
def wToStr : Nat → String := fun n => String.mk (List.replicate n 'x')

/-- Concrete stand-in for euclideanDistance used to instantiate witnesses:
the distance is stored in the first coordinate of the enrolled
descriptor. -/
def wDist : List ℚ → List ℚ → ℚ := fun _ d2 => d2.headD 1

/-- Concrete detection used to instantiate witnesses: confidence 2/5 and a
100 by 100 bounding box. -/
def wDet : Detection := ⟨2/5, ⟨100, 100⟩, [], [], [], [], []⟩

/-- Concrete roster used to instantiate witnesses, read together with
wDist: entries E1 and E2 are enrolled at distances 3/100 and 8/100 from
the query (a margin of 5/100, the spec example of two enrolled descriptors
5/100 apart with the query 3/100 from the closer one), E3 has no stored
encoding. -/
def wRoster : List RosterEntry :=
  [⟨"E1", some [("0", 3/100)]⟩, ⟨"E2", some [("0", 8/100)]⟩, ⟨"E3", none⟩]


theorem addMatch_same_spec (t : ConsecutiveMatchTracker) (id : String)
    (h : ¬(t.matchHistory ≠ [] ∧ t.matchHistory.getLast? ≠ some id)) :
    (addMatch t (some id)).1.streak =
        min (t.matchHistory.length + 1) (t.requiredMatches + 2) ∧
    ((addMatch t (some id)).1.confirmed = true ↔
        t.requiredMatches ≤ t.matchHistory.length + 1) ∧
    (addMatch t (some id)).1.employeeId = some id ∧
    (addMatch t (some id)).2.matchHistory.length =
        min (t.matchHistory.length + 1) (t.requiredMatches + 2) ∧
    (addMatch t (some id)).2.matchHistory.getLast? = some id ∧
    (addMatch t (some id)).2.requiredMatches = t.requiredMatches := by
  simp only [addMatch, if_neg h]
  by_cases hlen : t.requiredMatches + 2 < (t.matchHistory ++ [id]).length
  · rw [if_pos hlen]
    simp only [List.length_append, List.length_cons, List.length_nil] at hlen
    refine ⟨?_, ?_, trivial, ?_, ?_, trivial⟩
    · simp only [List.length_drop, List.length_append, List.length_cons, List.length_nil]
      omega
    · simp only [decide_eq_true_iff, List.length_drop, List.length_append,
        List.length_cons, List.length_nil]
      omega
    · simp only [List.length_drop, List.length_append, List.length_cons, List.length_nil]
      omega
    · simp only [List.length_append, List.length_cons, List.length_nil]
      rw [List.drop_append_of_le_length (by omega)]
      exact List.getLast?_concat _
  · rw [if_neg hlen]
    simp only [List.length_append, List.length_cons, List.length_nil,
      decide_eq_true_iff] at hlen ⊢
    refine ⟨by omega, trivial, trivial, by omega, List.getLast?_concat _, trivial⟩


theorem allSame_of_forall_eq (c : String) {l : List String} (h : ∀ a ∈ l, a = c) :
    allSame l := fun a ha b hb => (h a ha).trans (h b hb).symm

theorem allSame_nil : allSame [] := fun a ha => absurd ha (List.not_mem_nil a)

theorem pushed_forall_eq (t : ConsecutiveMatchTracker) (id : String)
    (h : allSame t.matchHistory)
    (hcond : ¬(t.matchHistory ≠ [] ∧ t.matchHistory.getLast? ≠ some id)) :
    ∀ a ∈ t.matchHistory ++ [id], a = id := by
  push_neg at hcond
  intro a ha
  rcases List.mem_append.1 ha with h1 | h1
  · by_cases hnil : t.matchHistory = []
    · rw [hnil] at h1; exact absurd h1 (List.not_mem_nil a)
    · have hgl := hcond hnil
      exact h a h1 id (List.mem_of_mem_getLast? hgl)
  · simpa using h1

theorem addMatch_allSame (t : ConsecutiveMatchTracker) (e : Option String)
    (h : allSame t.matchHistory) : allSame (addMatch t e).2.matchHistory := by
  match e with
  | none => exact allSame_nil
  | some id =>
      by_cases hcond : t.matchHistory ≠ [] ∧ t.matchHistory.getLast? ≠ some id
      · simp only [addMatch, if_pos hcond]
        intro a ha b hb
        simp only [List.mem_singleton] at ha hb
        rw [ha, hb]
      · simp only [addMatch, if_neg hcond]
        apply allSame_of_forall_eq id
        intro a ha
        revert ha
        split
        · exact fun ha => pushed_forall_eq t id h hcond a (List.mem_of_mem_drop ha)
        · exact fun ha => pushed_forall_eq t id h hcond a ha

theorem addMatch_confirmed_spec (t : ConsecutiveMatchTracker) (id : String)
    (h : allSame t.matchHistory)
    (hc : (addMatch t (some id)).1.confirmed = true) :
    (addMatch t (some id)).1.employeeId = some id ∧
    ∀ a ∈ (addMatch t (some id)).2.matchHistory, a = id := by
  by_cases hcond : t.matchHistory ≠ [] ∧ t.matchHistory.getLast? ≠ some id
  · simp only [addMatch, if_pos hcond] at hc
    exact absurd hc (by simp)
  · refine ⟨by simp only [addMatch, if_neg hcond], ?_⟩
    simp only [addMatch, if_neg hcond]
    intro a ha
    revert ha
    split
    · exact fun ha => pushed_forall_eq t id h hcond a (List.mem_of_mem_drop ha)
    · exact fun ha => pushed_forall_eq t id h hcond a ha

theorem runEvents_allSame (evs : List TrackerEvent) :
    ∀ t : ConsecutiveMatchTracker, allSame t.matchHistory →
      allSame (runEvents t evs).matchHistory := by
  induction evs with
  | nil => exact fun t h => h
  | cons e rest ih =>
      intro t h
      simp only [runEvents]
      apply ih
      cases e with
      | add eid => exact addMatch_allSame t eid h
      | reset => exact allSame_nil

/-- C2, amended: for a tracker with requiredMatches at least 1 whose history is
nonempty and ends in id, addMatch with the same id yields employeeId id,
streak and new history length equal to min (n + 1) (requiredMatches + 2)
where n is the old history length (the trim caps the streak at
requiredMatches + 2, so streak is not always n + 1), confirmed holds
exactly when n + 1 is at least requiredMatches, the new history still ends
in id, and with requiredMatches = 1 a single addMatch of E1 from the empty
state returns confirmed true with streak 1. -/
theorem claim_C2 (t : ConsecutiveMatchTracker) (id : String)
    (_hreq : 1 ≤ t.requiredMatches) (hlast : t.matchHistory.getLast? = some id) :
    (addMatch t (some id)).1.streak =
        min (t.matchHistory.length + 1) (t.requiredMatches + 2) ∧
    ((addMatch t (some id)).1.confirmed = true ↔
        t.requiredMatches ≤ t.matchHistory.length + 1) ∧
    (addMatch t (some id)).1.employeeId = some id ∧
    (addMatch t (some id)).2.matchHistory.length =
        min (t.matchHistory.length + 1) (t.requiredMatches + 2) ∧
    (addMatch t (some id)).2.matchHistory.getLast? = some id ∧
    (addMatch t (some id)).2.requiredMatches = t.requiredMatches ∧
    (addMatch ⟨[], 1⟩ (some "E1")).1 = ⟨true, some "E1", 1⟩ := by
  have h : ¬(t.matchHistory ≠ [] ∧ t.matchHistory.getLast? ≠ some id) := by
    rintro ⟨h1, h2⟩; exact h2 hlast
  obtain ⟨a, b, c, d, e, f⟩ := addMatch_same_spec t id h
  exact ⟨a, b, c, d, e, f, by decide⟩

/-- C2, counterexample to the claim as stated: the history of three E1
entries with requiredMatches = 1 is reachable from the empty tracker by
three addMatch calls, and the next addMatch of E1 returns streak 3, not
the history length plus one (which is 4), because the trim caps the
history at requiredMatches + 2 = 3 entries. -/
theorem claim_C2_counterexample :
    runEvents ⟨[], 1⟩ [TrackerEvent.add (some "E1"), TrackerEvent.add (some "E1"),
        TrackerEvent.add (some "E1")] =
      (⟨["E1", "E1", "E1"], 1⟩ : ConsecutiveMatchTracker) ∧
    (addMatch (⟨["E1", "E1", "E1"], 1⟩ : ConsecutiveMatchTracker) (some "E1")).1.streak ≠
      (["E1", "E1", "E1"] : List String).length + 1 := by decide

/-- C2 witness: the amended theorem instantiated at the tracker with
history containing one E1 entry and requiredMatches 3. -/
theorem claim_C2_witness :
    (addMatch ⟨["E1"], 3⟩ (some "E1")).1.streak =
        min ((["E1"] : List String).length + 1) (3 + 2) ∧
    ((addMatch ⟨["E1"], 3⟩ (some "E1")).1.confirmed = true ↔
        3 ≤ (["E1"] : List String).length + 1) ∧
    (addMatch ⟨["E1"], 3⟩ (some "E1")).1.employeeId = some "E1" ∧
    (addMatch ⟨["E1"], 3⟩ (some "E1")).2.matchHistory.length =
        min ((["E1"] : List String).length + 1) (3 + 2) ∧
    (addMatch ⟨["E1"], 3⟩ (some "E1")).2.matchHistory.getLast? = some "E1" ∧
    (addMatch ⟨["E1"], 3⟩ (some "E1")).2.requiredMatches = 3 ∧
    (addMatch ⟨[], 1⟩ (some "E1")).1 = ⟨true, some "E1", 1⟩ :=
  claim_C2 ⟨["E1"], 3⟩ "E1" (by decide) (by decide)

/-- C5: addMatch with an identifier different from the one the current
history ends in resets the state to a single-entry history of the new
identifier and returns confirmed false, streak 1; in particular with
requiredMatches = 3 the sequence addMatch E1, addMatch E1, addMatch E2
returns, after the third call, confirmed false and streak 1. -/
theorem claim_C5 (t : ConsecutiveMatchTracker) (id id2 : String)
    (hlast : t.matchHistory.getLast? = some id) (hne : id2 ≠ id) :
    addMatch t (some id2) =
      ({ confirmed := false, employeeId := some id2, streak := 1 },
       { t with matchHistory := [id2] }) ∧
    (addMatch (runEvents ⟨[], 3⟩ [TrackerEvent.add (some "E1"),
        TrackerEvent.add (some "E1")]) (some "E2")).1 =
      ⟨false, some "E2", 1⟩ := by
  have hnil : t.matchHistory ≠ [] := by
    intro hn; rw [hn] at hlast; simp at hlast
  have hcond : t.matchHistory ≠ [] ∧ t.matchHistory.getLast? ≠ some id2 := by
    refine ⟨hnil, ?_⟩
    rw [hlast]
    intro hc
    injection hc with hc
    exact hne hc.symm
  exact ⟨by simp only [addMatch, if_pos hcond], by decide⟩

/-- C5 witness: the theorem instantiated at the tracker whose history is
one E1 entry with requiredMatches 3 and the new identifier E2. -/
theorem claim_C5_witness :
    addMatch ⟨["E1"], 3⟩ (some "E2") =
      ({ confirmed := false, employeeId := some "E2", streak := 1 },
       (⟨["E2"], 3⟩ : ConsecutiveMatchTracker)) ∧
    (addMatch (runEvents ⟨[], 3⟩ [TrackerEvent.add (some "E1"),
        TrackerEvent.add (some "E1")]) (some "E2")).1 =
      ⟨false, some "E2", 1⟩ :=
  claim_C5 ⟨["E1"], 3⟩ "E1" "E2" (by decide) (by decide)

/-- C6: addMatch of none, from any tracker state, empties the history and
returns confirmed false, employeeId none, streak 0. -/
theorem claim_C6 (t : ConsecutiveMatchTracker) :
    addMatch t none =
      ({ confirmed := false, employeeId := none, streak := 0 },
       { t with matchHistory := [] }) := rfl

/-- C8: after any sequence of addMatch and reset calls from a fresh
tracker, all entries of the internal match history carry one and the same
identifier, and whenever addMatch of some id returns confirmed true the
returned identity is exactly that id and the whole stored history consists
of that id, so a confirmed identity is always the candidate of the current
unbroken run and never merely the most frequent identifier over history. -/
theorem claim_C8 (req : Nat) (evs : List TrackerEvent) :
    allSame (runEvents ⟨[], req⟩ evs).matchHistory ∧
    ∀ id, (addMatch (runEvents ⟨[], req⟩ evs) (some id)).1.confirmed = true →
      (addMatch (runEvents ⟨[], req⟩ evs) (some id)).1.employeeId = some id ∧
      ∀ a ∈ (addMatch (runEvents ⟨[], req⟩ evs) (some id)).2.matchHistory, a = id := by
  have hall := runEvents_allSame evs ⟨[], req⟩ allSame_nil
  exact ⟨hall, fun id hc => addMatch_confirmed_spec _ id hall hc⟩

/-- C8 witness: the confirmed-identity part instantiated at the event
sequence consisting of one addMatch of E1 with requiredMatches 1. -/
theorem claim_C8_witness :
    (addMatch (runEvents ⟨[], 1⟩ [TrackerEvent.add (some "E1")])
        (some "E1")).1.employeeId = some "E1" ∧
    ∀ a ∈ (addMatch (runEvents ⟨[], 1⟩ [TrackerEvent.add (some "E1")])
        (some "E1")).2.matchHistory, a = "E1" :=
  (claim_C8 1 [TrackerEvent.add (some "E1")]).2 "E1" (by decide)


/-- C4: detectFace applies exactly five rejection checks in order, namely
no detection, confidence below 0.5, box area below 10000, quality score
below 0.5 and liveness score below 0.4, each short-circuiting with its own
message (the five messages are pairwise distinct); any detection with
confidence below 0.5 produces the unclear rejection regardless of the
other scores, and the descriptor of the result is non-null exactly when
all five checks pass. -/
theorem claim_C4 (sqrt : ℚ → ℚ) (atan2 : ℚ → ℚ → ℚ) :
    (detectFace sqrt atan2 none =
      ⟨false, none, 0, 0, "No face detected. Please position your face in the frame."⟩) ∧
    (∀ d : Detection, d.score < MIN_DETECTION_CONFIDENCE →
      detectFace sqrt atan2 (some d) =
        ⟨true, none, 0, d.score, "Face unclear. Please improve lighting and hold still."⟩) ∧
    (∀ d : Detection, ¬ d.score < MIN_DETECTION_CONFIDENCE →
      d.box.width * d.box.height < MIN_FACE_AREA →
      detectFace sqrt atan2 (some d) =
        ⟨true, none, 0, 0.3, "Please move closer to the camera."⟩) ∧
    (∀ d : Detection, ¬ d.score < MIN_DETECTION_CONFIDENCE →
      ¬ d.box.width * d.box.height < MIN_FACE_AREA →
      calculateQualityScore sqrt atan2 d < 0.5 →
      detectFace sqrt atan2 (some d) =
        ⟨true, none, calculateLivenessScore sqrt d, calculateQualityScore sqrt atan2 d,
          "Please face the camera directly and hold still."⟩) ∧
    (∀ d : Detection, ¬ d.score < MIN_DETECTION_CONFIDENCE →
      ¬ d.box.width * d.box.height < MIN_FACE_AREA →
      ¬ calculateQualityScore sqrt atan2 d < 0.5 →
      calculateLivenessScore sqrt d < MIN_LIVENESS_SCORE →
      detectFace sqrt atan2 (some d) =
        ⟨true, none, calculateLivenessScore sqrt d, calculateQualityScore sqrt atan2 d,
          "Please keep your eyes open and look at the camera."⟩) ∧
    (∀ d : Detection, ¬ d.score < MIN_DETECTION_CONFIDENCE →
      ¬ d.box.width * d.box.height < MIN_FACE_AREA →
      ¬ calculateQualityScore sqrt atan2 d < 0.5 →
      ¬ calculateLivenessScore sqrt d < MIN_LIVENESS_SCORE →
      detectFace sqrt atan2 (some d) =
        ⟨true, some d.descriptor, calculateLivenessScore sqrt d,
          calculateQualityScore sqrt atan2 d, "Face verified successfully!"⟩) ∧
    (∀ d : Detection, (detectFace sqrt atan2 (some d)).descriptor ≠ none ↔
      (¬ d.score < MIN_DETECTION_CONFIDENCE ∧
       ¬ d.box.width * d.box.height < MIN_FACE_AREA ∧
       ¬ calculateQualityScore sqrt atan2 d < 0.5 ∧
       ¬ calculateLivenessScore sqrt d < MIN_LIVENESS_SCORE)) ∧
    List.Pairwise (fun a b => a ≠ b)
      ["No face detected. Please position your face in the frame.",
       "Face unclear. Please improve lighting and hold still.",
       "Please move closer to the camera.",
       "Please face the camera directly and hold still.",
       "Please keep your eyes open and look at the camera."] := by
  refine ⟨rfl, ?_, ?_, ?_, ?_, ?_, ?_, by decide⟩
  · intro d h1
    simp only [detectFace, if_pos h1]
  · intro d h1 h2
    simp only [detectFace, if_neg h1, if_pos h2]
  · intro d h1 h2 h3
    simp only [detectFace, if_neg h1, if_neg h2, if_pos h3]
  · intro d h1 h2 h3 h4
    simp only [detectFace, if_neg h1, if_neg h2, if_neg h3, if_pos h4]
  · intro d h1 h2 h3 h4
    simp only [detectFace, if_neg h1, if_neg h2, if_neg h3, if_neg h4]
  · intro d
    constructor
    · intro hne
      by_cases h1 : d.score < MIN_DETECTION_CONFIDENCE
      · simp [detectFace, if_pos h1] at hne
      by_cases h2 : d.box.width * d.box.height < MIN_FACE_AREA
      · simp [detectFace, if_neg h1, if_pos h2] at hne
      by_cases h3 : calculateQualityScore sqrt atan2 d < 0.5
      · simp [detectFace, if_neg h1, if_neg h2, if_pos h3] at hne
      by_cases h4 : calculateLivenessScore sqrt d < MIN_LIVENESS_SCORE
      · simp [detectFace, if_neg h1, if_neg h2, if_neg h3, if_pos h4] at hne
      exact ⟨h1, h2, h3, h4⟩
    · rintro ⟨h1, h2, h3, h4⟩
      simp [detectFace, if_neg h1, if_neg h2, if_neg h3, if_neg h4]


/-- C4 witness: the unclear branch instantiated at the concrete detection
with confidence 2/5. -/
theorem claim_C4_witness :
    detectFace wSqrt wAtan2 (some wDet) =
      ⟨true, none, 0, wDet.score, "Face unclear. Please improve lighting and hold still."⟩ :=
  (claim_C4 wSqrt wAtan2).2.1 wDet (by norm_num [wDet, MIN_DETECTION_CONFIDENCE])

/-- C7: for a detection with nonnegative confidence and box sides, the
quality score equals the product of the raw confidence, the size factor
0.5 + 0.5 * min (boxArea / 40000) 1, a 0.7 factor applied exactly when the
absolute eye tilt angle exceeds 0.2, and a 0.6 factor applied exactly when
the nose tip horizontal offset exceeds 0.3 times the inter-eye distance,
clamped to at most 1; consequently the score never exceeds the unpenalized
baseline min (confidence * sizeFactor) 1, so each penalty in isolation is
non-increasing. -/
theorem claim_C7 (sqrt : ℚ → ℚ) (atan2 : ℚ → ℚ → ℚ) (d : Detection)
    (hs : 0 ≤ d.score) (hw : 0 ≤ d.box.width) (hh : 0 ≤ d.box.height) :
    calculateQualityScore sqrt atan2 d =
      min (d.score * sizeFactor d *
        (if eyeTiltAngle atan2 d > 0.2 then 0.7 else 1) *
        (if noseOffset d > eyeDistance sqrt d * 0.3 then 0.6 else 1)) 1 ∧
    calculateQualityScore sqrt atan2 d ≤ min (d.score * sizeFactor d) 1 := by
  have hsf : 0 ≤ sizeFactor d := by
    have h0 : (0:ℚ) ≤ min (d.box.width * d.box.height / 40000) 1 :=
      le_min (by positivity) (by norm_num)
    simp only [sizeFactor]
    nlinarith
  have hmain : calculateQualityScore sqrt atan2 d =
      min (d.score * sizeFactor d *
        (if eyeTiltAngle atan2 d > 0.2 then 0.7 else 1) *
        (if noseOffset d > eyeDistance sqrt d * 0.3 then 0.6 else 1)) 1 := by
    simp only [calculateQualityScore, eyeTiltAngle, noseOffset, eyeDistance, sizeFactor]
    split_ifs <;> (congr 1 <;> ring_nf)
  refine ⟨hmain, ?_⟩
  rw [hmain]
  have hb : 0 ≤ d.score * sizeFactor d := mul_nonneg hs hsf
  refine min_le_min ?_ le_rfl
  split_ifs <;> nlinarith


theorem belowDists_append (pInt : String → Int) (dist : List ℚ → List ℚ → ℚ)
    (captured : List ℚ) (es1 es2 : List RosterEntry) :
    belowDists pInt dist captured (es1 ++ es2) =
      belowDists pInt dist captured es1 ++ belowDists pInt dist captured es2 := by
  simp [belowDists]

theorem belowDists_single_none (pInt : String → Int) (dist : List ℚ → List ℚ → ℚ)
    (captured : List ℚ) (e : RosterEntry) (h : e.face_encoding = none) :
    belowDists pInt dist captured [e] = [] := by
  simp [belowDists, entryDist, h]

theorem belowDists_single_some (pInt : String → Int) (dist : List ℚ → List ℚ → ℚ)
    (captured : List ℚ) (e : RosterEntry) (enc : List (String × ℚ))
    (h : e.face_encoding = some enc) :
    belowDists pInt dist captured [e] =
      if dist captured (reconstructDescriptor pInt enc) < MATCH_THRESHOLD then
        [dist captured (reconstructDescriptor pInt enc)]
      else [] := by
  by_cases hlt : dist captured (reconstructDescriptor pInt enc) < MATCH_THRESHOLD
  · simp [belowDists, entryDist, h, hlt]
  · simp [belowDists, entryDist, h, hlt]

theorem belowDists_eq_nil_iff (pInt : String → Int) (dist : List ℚ → List ℚ → ℚ)
    (captured : List ℚ) (es : List RosterEntry) :
    belowDists pInt dist captured es = [] ↔
      ∀ e ∈ es, ∀ enc, e.face_encoding = some enc →
        ¬ dist captured (reconstructDescriptor pInt enc) < MATCH_THRESHOLD := by
  rw [belowDists, List.filterMap_eq_nil_iff]
  constructor
  · intro h e he enc henc hlt
    have := h e he
    rw [entryDist, henc] at this
    simp [hlt] at this
  · intro h e he
    cases henc : e.face_encoding with
    | none => simp [entryDist, henc]
    | some enc =>
        have := h e he enc henc
        simp [entryDist, henc, this]

theorem mem_belowDists (pInt : String → Int) (dist : List ℚ → List ℚ → ℚ)
    (captured : List ℚ) (es : List RosterEntry) (e : RosterEntry)
    (enc : List (String × ℚ)) (he : e ∈ es) (henc : e.face_encoding = some enc)
    (hlt : dist captured (reconstructDescriptor pInt enc) < MATCH_THRESHOLD) :
    dist captured (reconstructDescriptor pInt enc) ∈ belowDists pInt dist captured es := by
  rw [belowDists, List.mem_filterMap]
  exact ⟨e, he, by simp [entryDist, henc, hlt]⟩


theorem scanInv_keep (pInt : String → Int) (dist : List ℚ → List ℚ → ℚ)
    (captured : List ℚ) (es : List RosterEntry) (st : MatchScan) (e : RosterEntry)
    (h : scanInv pInt dist captured es st)
    (hnil : belowDists pInt dist captured [e] = []) :
    scanInv pInt dist captured (es ++ [e]) st := by
  have happ := belowDists_append pInt dist captured es [e]
  rw [hnil, List.append_nil] at happ
  obtain ⟨bm, sb⟩ := st
  cases bm with
  | none =>
      simp only [scanInv] at h ⊢
      exact ⟨by rw [happ]; exact h.1, h.2⟩
  | some b =>
      simp only [scanInv] at h ⊢
      obtain ⟨h1, h2, ⟨e0, he0, hw⟩, rest, hperm, hmin, hsnd⟩ := h
      exact ⟨h1, h2, ⟨e0, List.mem_append_left _ he0, hw⟩,
        rest, by rw [happ]; exact hperm, hmin, hsnd⟩


theorem scanInv_step (pInt : String → Int) (dist : List ℚ → List ℚ → ℚ)
    (captured : List ℚ) (es : List RosterEntry) (st : MatchScan) (e : RosterEntry)
    (h : scanInv pInt dist captured es st) :
    scanInv pInt dist captured (es ++ [e]) (matchStep pInt dist captured st e) := by
  cases henc : e.face_encoding with
  | none =>
      have hstep : matchStep pInt dist captured st e = st := by
        simp only [matchStep, henc]
      rw [hstep]
      exact scanInv_keep pInt dist captured es st e h
        (belowDists_single_none pInt dist captured e henc)
  | some enc =>
      by_cases hlt : dist captured (reconstructDescriptor pInt enc) < MATCH_THRESHOLD
      case neg =>
        have hstep : matchStep pInt dist captured st e = st := by
          simp only [matchStep, henc, compareFaceDescriptors, if_neg hlt]
        rw [hstep]
        refine scanInv_keep pInt dist captured es st e h ?_
        rw [belowDists_single_some pInt dist captured e enc henc, if_neg hlt]
      case pos =>
        have hsingle : belowDists pInt dist captured [e] =
            [dist captured (reconstructDescriptor pInt enc)] := by
          rw [belowDists_single_some pInt dist captured e enc henc, if_pos hlt]
        have happ : belowDists pInt dist captured (es ++ [e]) =
            belowDists pInt dist captured es ++
              [dist captured (reconstructDescriptor pInt enc)] := by
          rw [belowDists_append, hsingle]
        obtain ⟨bm, sb⟩ := st
        cases bm with
        | none =>
            obtain ⟨hL, hsb⟩ := h
            have hstep : matchStep pInt dist captured ⟨none, sb⟩ e =
                ⟨some ⟨e.id, dist captured (reconstructDescriptor pInt enc),
                  max 0 ((MATCH_THRESHOLD - dist captured (reconstructDescriptor pInt enc)) /
                    MATCH_THRESHOLD)⟩, sb⟩ := by
              simp only [matchStep, henc, compareFaceDescriptors, if_pos hlt]
            rw [hstep]
            refine ⟨hlt, rfl,
              ⟨e, List.mem_append_right _ (by simp), enc, henc, rfl, rfl⟩,
              [], ?_, by simp, ?_⟩
            · rw [happ, hL]
              exact List.Perm.refl _
            · rw [hsb]
              rfl
        | some b =>
            obtain ⟨hbθ, hbconf, ⟨e0, he0, hw0⟩, rest, hperm, hmin, hsnd⟩ := h
            have hpermApp : (belowDists pInt dist captured (es ++ [e])).Perm
                (b.distance :: (rest ++ [dist captured (reconstructDescriptor pInt enc)])) := by
              rw [happ]
              have := hperm.append_right [dist captured (reconstructDescriptor pInt enc)]
              rwa [List.cons_append] at this
            by_cases hdb : dist captured (reconstructDescriptor pInt enc) < b.distance
            · have hstep : matchStep pInt dist captured ⟨some b, sb⟩ e =
                  ⟨some ⟨e.id, dist captured (reconstructDescriptor pInt enc),
                    max 0 ((MATCH_THRESHOLD - dist captured (reconstructDescriptor pInt enc)) /
                      MATCH_THRESHOLD)⟩, some b.distance⟩ := by
                simp only [matchStep, henc, compareFaceDescriptors, if_pos hlt, if_pos hdb]
              rw [hstep]
              refine ⟨hlt, rfl,
                ⟨e, List.mem_append_right _ (by simp), enc, henc, rfl, rfl⟩,
                b.distance :: rest, ?_, ?_, ?_⟩
              · refine hpermApp.trans ?_
                have h1 : (b.distance :: rest) ++
                    [dist captured (reconstructDescriptor pInt enc)] =
                    b.distance :: (rest ++ [dist captured (reconstructDescriptor pInt enc)]) :=
                  List.cons_append _ _ _
                rw [← h1]
                exact List.perm_append_singleton _ _
              · intro x hx
                rcases List.mem_cons.1 hx with hx | hx
                · rw [hx]; exact hdb.le
                · exact hdb.le.trans (hmin x hx)
              · exact ⟨List.mem_cons_self _ _, fun x hx => by
                  rcases List.mem_cons.1 hx with hx | hx
                  · rw [hx]
                  · exact hmin x hx⟩
            · have hbd_le : b.distance ≤ dist captured (reconstructDescriptor pInt enc) :=
                not_lt.1 hdb
              have hminApp : ∀ x ∈ rest ++ [dist captured (reconstructDescriptor pInt enc)],
                  b.distance ≤ x := by
                intro x hx
                rcases List.mem_append.1 hx with hx | hx
                · exact hmin x hx
                · rw [List.mem_singleton.1 hx]; exact hbd_le
              cases sb with
              | none =>
                  have hrest : rest = [] := hsnd
                  have hstep : matchStep pInt dist captured ⟨some b, none⟩ e =
                      ⟨some b, some (dist captured (reconstructDescriptor pInt enc))⟩ := by
                    simp only [matchStep, henc, compareFaceDescriptors, if_pos hlt,
                      if_neg hdb, ltSecondBest, if_true]
                  rw [hstep]
                  refine ⟨hbθ, hbconf, ⟨e0, List.mem_append_left _ he0, hw0⟩,
                    rest ++ [dist captured (reconstructDescriptor pInt enc)],
                    hpermApp, hminApp, ?_⟩
                  refine ⟨List.mem_append_right _ (by simp), ?_⟩
                  intro x hx
                  rw [hrest] at hx
                  simp only [List.nil_append, List.mem_singleton] at hx
                  rw [hx]
              | some s =>
                  obtain ⟨hsmem, hsmin⟩ := hsnd
                  by_cases hds : dist captured (reconstructDescriptor pInt enc) < s
                  · have hlts : ltSecondBest (dist captured (reconstructDescriptor pInt enc))
                        (some s) = true := by simp [ltSecondBest, hds]
                    have hstep : matchStep pInt dist captured ⟨some b, some s⟩ e =
                        ⟨some b, some (dist captured (reconstructDescriptor pInt enc))⟩ := by
                      simp [matchStep, henc, compareFaceDescriptors, if_pos hlt,
                        if_neg hdb, hlts]
                    rw [hstep]
                    refine ⟨hbθ, hbconf, ⟨e0, List.mem_append_left _ he0, hw0⟩,
                      rest ++ [dist captured (reconstructDescriptor pInt enc)],
                      hpermApp, hminApp,
                      ⟨List.mem_append_right _ (by simp), ?_⟩⟩
                    intro x hx
                    rcases List.mem_append.1 hx with hx | hx
                    · exact (hds.le).trans (hsmin x hx)
                    · rw [List.mem_singleton.1 hx]
                  · have hlts : ltSecondBest (dist captured (reconstructDescriptor pInt enc))
                        (some s) = false := by simp [ltSecondBest, hds]
                    have hstep : matchStep pInt dist captured ⟨some b, some s⟩ e =
                        ⟨some b, some s⟩ := by
                      simp [matchStep, henc, compareFaceDescriptors, if_pos hlt,
                        if_neg hdb, hlts]
                    rw [hstep]
                    refine ⟨hbθ, hbconf, ⟨e0, List.mem_append_left _ he0, hw0⟩,
                      rest ++ [dist captured (reconstructDescriptor pInt enc)],
                      hpermApp, hminApp,
                      ⟨List.mem_append_left _ hsmem, ?_⟩⟩
                    intro x hx
                    rcases List.mem_append.1 hx with hx | hx
                    · exact hsmin x hx
                    · rw [List.mem_singleton.1 hx]; exact not_lt.1 hds


theorem scanInv_foldl (pInt : String → Int) (dist : List ℚ → List ℚ → ℚ)
    (captured : List ℚ) (es : List RosterEntry) :
    ∀ (pre : List RosterEntry) (st : MatchScan),
      scanInv pInt dist captured pre st →
      scanInv pInt dist captured (pre ++ es)
        (es.foldl (matchStep pInt dist captured) st) := by
  induction es with
  | nil => intro pre st h; simpa using h
  | cons e rest ih =>
      intro pre st h
      have h1 := scanInv_step pInt dist captured pre st e h
      have h2 := ih (pre ++ [e]) (matchStep pInt dist captured st e) h1
      simpa [List.append_assoc] using h2

theorem scanInv_full (pInt : String → Int) (dist : List ℚ → List ℚ → ℚ)
    (captured : List ℚ) (es : List RosterEntry) :
    scanInv pInt dist captured es
      (es.foldl (matchStep pInt dist captured) ⟨none, none⟩) := by
  have h0 : scanInv pInt dist captured [] ⟨none, none⟩ := by
    exact ⟨by simp [belowDists], rfl⟩
  simpa using scanInv_foldl pInt dist captured es [] ⟨none, none⟩ h0

theorem findMatch_spec (pInt : String → Int) (dist : List ℚ → List ℚ → ℚ)
    (captured : List ℚ) (es : List RosterEntry) (m : MatchResult)
    (hm : findMatchingEmployee pInt dist captured es = some m) :
    ∃ rest, m.distance < MATCH_THRESHOLD ∧
      (∃ e ∈ es, ∃ enc, e.face_encoding = some enc ∧ e.id = m.employeeId ∧
        dist captured (reconstructDescriptor pInt enc) = m.distance) ∧
      (belowDists pInt dist captured es).Perm (m.distance :: rest) ∧
      (∀ x ∈ rest, m.distance ≤ x) ∧
      ((rest = [] ∧
          m.confidence = max 0 ((MATCH_THRESHOLD - m.distance) / MATCH_THRESHOLD)) ∨
       (∃ s, s ∈ rest ∧ (∀ x ∈ rest, s ≤ x) ∧
          m.confidence =
            (if s - m.distance < 0.1 then
              max 0 ((MATCH_THRESHOLD - m.distance) / MATCH_THRESHOLD) * 0.5
            else max 0 ((MATCH_THRESHOLD - m.distance) / MATCH_THRESHOLD)))) := by
  have hinv := scanInv_full pInt dist captured es
  rw [findMatchingEmployee] at hm
  cases hbm : (es.foldl (matchStep pInt dist captured) ⟨none, none⟩).bestMatch with
  | none =>
      rw [hbm] at hm
      cases hsb : (es.foldl (matchStep pInt dist captured)
          ⟨none, none⟩).secondBestDistance with
      | none => rw [hsb] at hm; exact absurd hm (by simp)
      | some s => rw [hsb] at hm; exact absurd hm (by simp)
  | some b =>
      rw [hbm] at hm
      rw [scanInv, hbm] at hinv
      obtain ⟨hbθ, hbconf, hbwit, rest, hperm, hmin, hsnd⟩ := hinv
      cases hsb : (es.foldl (matchStep pInt dist captured)
          ⟨none, none⟩).secondBestDistance with
      | none =>
          rw [hsb] at hm hsnd
          simp only [secondInv] at hsnd
          have hmb : b = m := by
            have hm2 : some b = some m := hm
            exact Option.some.inj hm2
          subst hmb
          exact ⟨rest, hbθ, hbwit, hperm, hmin, Or.inl ⟨hsnd, hbconf⟩⟩
      | some s =>
          rw [hsb] at hm hsnd
          simp only [secondInv] at hsnd
          obtain ⟨hsmem, hsmin⟩ := hsnd
          have hm2 : (if s - b.distance < 0.1 then
              some { b with confidence := b.confidence * 0.5 } else some b) = some m := hm
          by_cases hd : s - b.distance < 0.1
          · rw [if_pos hd] at hm2
            have hmb : { b with confidence := b.confidence * 0.5 } = m :=
              Option.some.inj hm2
            subst hmb
            refine ⟨rest, hbθ, hbwit, hperm, hmin, Or.inr ⟨s, hsmem, hsmin, ?_⟩⟩
            simp only
            rw [if_pos hd, hbconf]
          · rw [if_neg hd] at hm2
            have hmb : b = m := Option.some.inj hm2
            subst hmb
            refine ⟨rest, hbθ, hbwit, hperm, hmin, Or.inr ⟨s, hsmem, hsmin, ?_⟩⟩
            rw [if_neg hd]
            exact hbconf


theorem belowDists_lt (pInt : String → Int) (dist : List ℚ → List ℚ → ℚ)
    (captured : List ℚ) (es : List RosterEntry) (x : ℚ)
    (hx : x ∈ belowDists pInt dist captured es) : x < MATCH_THRESHOLD := by
  rw [belowDists, List.mem_filterMap] at hx
  obtain ⟨e, _, hfe⟩ := hx
  cases henc : e.face_encoding with
  | none => rw [entryDist, henc] at hfe; simp at hfe
  | some enc =>
      rw [entryDist, henc] at hfe
      simp only [Option.map_some'] at hfe
      by_cases hlt : dist captured (reconstructDescriptor pInt enc) < MATCH_THRESHOLD
      · rw [if_pos hlt] at hfe
        rw [← Option.some.inj hfe]
        exact hlt
      · rw [if_neg hlt] at hfe
        exact absurd hfe (by simp)

theorem findMatch_none_iff (pInt : String → Int) (dist : List ℚ → List ℚ → ℚ)
    (captured : List ℚ) (es : List RosterEntry) :
    findMatchingEmployee pInt dist captured es = none ↔
      belowDists pInt dist captured es = [] := by
  have hinv := scanInv_full pInt dist captured es
  rw [findMatchingEmployee]
  cases hbm : (es.foldl (matchStep pInt dist captured) ⟨none, none⟩).bestMatch with
  | none =>
      rw [scanInv, hbm] at hinv
      obtain ⟨hL, hsb⟩ := hinv
      rw [hsb]
      exact iff_of_true rfl hL
  | some b =>
      rw [scanInv, hbm] at hinv
      obtain ⟨hbθ, hbconf, hbwit, rest, hperm, hmin, hsnd⟩ := hinv
      have hmem : b.distance ∈ belowDists pInt dist captured es :=
        hperm.mem_iff.2 (List.mem_cons_self _ _)
      have hne : belowDists pInt dist captured es ≠ [] := by
        intro h0; rw [h0] at hmem; exact absurd hmem (List.not_mem_nil _)
      cases hsb : (es.foldl (matchStep pInt dist captured)
          ⟨none, none⟩).secondBestDistance with
      | none =>
          show some b = none ↔ belowDists pInt dist captured es = []
          exact iff_of_false (by simp) hne
      | some s =>
          show (if s - b.distance < 0.1 then
              some { b with confidence := b.confidence * 0.5 } else some b) = none ↔
            belowDists pInt dist captured es = []
          refine iff_of_false ?_ hne
          by_cases hd : s - b.distance < 0.1
          · rw [if_pos hd]; simp
          · rw [if_neg hd]; simp

/-- C1: findMatchingEmployee returns none exactly when no roster entry
with a non-null stored encoding has distance strictly below the 0.55
threshold (entries with null encodings never match, and a distance of
exactly 0.55 is excluded since the comparison is strict); and whenever it
returns a match, the match distance is below the threshold, is attained by
an entry whose id is returned, and is a lower bound of the distances of
all entries below the threshold, hence the minimum. -/
theorem claim_C1 (pInt : String → Int) (dist : List ℚ → List ℚ → ℚ)
    (captured : List ℚ) (es : List RosterEntry) :
    (findMatchingEmployee pInt dist captured es = none ↔
      ∀ e ∈ es, ∀ enc, e.face_encoding = some enc →
        ¬ dist captured (reconstructDescriptor pInt enc) < MATCH_THRESHOLD) ∧
    ∀ m, findMatchingEmployee pInt dist captured es = some m →
      m.distance < MATCH_THRESHOLD ∧
      (∃ e ∈ es, ∃ enc, e.face_encoding = some enc ∧ e.id = m.employeeId ∧
        dist captured (reconstructDescriptor pInt enc) = m.distance) ∧
      ∀ e ∈ es, ∀ enc, e.face_encoding = some enc →
        dist captured (reconstructDescriptor pInt enc) < MATCH_THRESHOLD →
        m.distance ≤ dist captured (reconstructDescriptor pInt enc) := by
  constructor
  · rw [findMatch_none_iff, belowDists_eq_nil_iff]
  · intro m hm
    obtain ⟨rest, hθ, hwit, hperm, hmin, _⟩ := findMatch_spec pInt dist captured es m hm
    refine ⟨hθ, hwit, ?_⟩
    intro e he enc henc hlt
    have hd := mem_belowDists pInt dist captured es e enc he henc hlt
    rcases List.mem_cons.1 (hperm.mem_iff.1 hd) with h1 | h1
    · rw [h1]
    · exact hmin _ h1

/-- C3: when findMatchingEmployee returns a match m and s is the second
best distance (a least element of the below-threshold distances once one
copy of the best distance is removed), the returned confidence is
max 0 ((0.55 - d) / 0.55) halved exactly when s - d < 0.1, the match is
still returned rather than rejected, and both d and s are strictly below
the threshold. -/
theorem claim_C3 (pInt : String → Int) (dist : List ℚ → List ℚ → ℚ)
    (captured : List ℚ) (es : List RosterEntry) (m : MatchResult) (s : ℚ)
    (others : List ℚ)
    (hm : findMatchingEmployee pInt dist captured es = some m)
    (hperm : (belowDists pInt dist captured es).Perm (m.distance :: others))
    (hs : s ∈ others) (hsmin : ∀ x ∈ others, s ≤ x) :
    m.confidence = (if s - m.distance < 0.1 then
        max 0 ((MATCH_THRESHOLD - m.distance) / MATCH_THRESHOLD) * 0.5
      else max 0 ((MATCH_THRESHOLD - m.distance) / MATCH_THRESHOLD)) ∧
    m.distance < MATCH_THRESHOLD ∧ s < MATCH_THRESHOLD := by
  obtain ⟨rest, hθ, hwit, hperm2, hmin2, hconf⟩ := findMatch_spec pInt dist captured es m hm
  have hor : others.Perm rest := (hperm.symm.trans hperm2).cons_inv
  have hsθ : s < MATCH_THRESHOLD := by
    refine belowDists_lt pInt dist captured es s (hperm.mem_iff.2 ?_)
    exact List.mem_cons_of_mem _ hs
  rcases hconf with ⟨hrest_nil, _⟩ | ⟨s0, hs0mem, hs0min, hconf⟩
  · rw [hrest_nil] at hor
    exact absurd (hor.mem_iff.1 hs) (List.not_mem_nil _)
  · have hss0 : s = s0 :=
      le_antisymm (hsmin s0 (hor.mem_iff.2 hs0mem)) (hs0min s (hor.mem_iff.1 hs))
    rw [hss0]
    exact ⟨hconf, hθ, hss0 ▸ hsθ⟩


/-- C1 witness: the returned-match part instantiated at the concrete
roster wRoster with the concrete distance stand-in wDist; the boundary
entry at distance exactly 55/100 of the none direction is exercised inside
the discharge of the hypothesis. -/
theorem claim_C1_witness :
    (⟨"E1", 3/100, 26/55⟩ : MatchResult).distance < MATCH_THRESHOLD ∧
    (∃ e ∈ wRoster, ∃ enc, e.face_encoding = some enc ∧
      e.id = (⟨"E1", 3/100, 26/55⟩ : MatchResult).employeeId ∧
      wDist [] (reconstructDescriptor wPInt enc) =
        (⟨"E1", 3/100, 26/55⟩ : MatchResult).distance) ∧
    ∀ e ∈ wRoster, ∀ enc, e.face_encoding = some enc →
      wDist [] (reconstructDescriptor wPInt enc) < MATCH_THRESHOLD →
      (⟨"E1", 3/100, 26/55⟩ : MatchResult).distance ≤
        wDist [] (reconstructDescriptor wPInt enc) :=
  (claim_C1 wPInt wDist [] wRoster).2 ⟨"E1", 3/100, 26/55⟩ (by
    norm_num [findMatchingEmployee, matchStep, compareFaceDescriptors,
      reconstructDescriptor, wPInt, wDist, MATCH_THRESHOLD, ltSecondBest,
      List.mergeSort, wRoster, List.foldl, List.lookup])

/-- C3 witness: the spec example with two enrolled descriptors 5/100
apart and the query at distance 3/100 from the closer one, so the margin
is below 0.1 and the returned confidence is exactly half the unadjusted
value. -/
theorem claim_C3_witness :
    (⟨"E1", 3/100, 26/55⟩ : MatchResult).confidence =
      (if (8/100 : ℚ) - (⟨"E1", 3/100, 26/55⟩ : MatchResult).distance < 0.1 then
        max 0 ((MATCH_THRESHOLD - (⟨"E1", 3/100, 26/55⟩ : MatchResult).distance) /
          MATCH_THRESHOLD) * 0.5
      else max 0 ((MATCH_THRESHOLD - (⟨"E1", 3/100, 26/55⟩ : MatchResult).distance) /
          MATCH_THRESHOLD)) ∧
    (⟨"E1", 3/100, 26/55⟩ : MatchResult).distance < MATCH_THRESHOLD ∧
    (8/100 : ℚ) < MATCH_THRESHOLD :=
  claim_C3 wPInt wDist [] wRoster ⟨"E1", 3/100, 26/55⟩ (8/100) [8/100]
    (by norm_num [findMatchingEmployee, matchStep, compareFaceDescriptors,
      reconstructDescriptor, wPInt, wDist, MATCH_THRESHOLD, ltSecondBest,
      List.mergeSort, wRoster, List.foldl, List.lookup])
    (by
      rw [show belowDists wPInt wDist [] wRoster = [3/100, 8/100] from by
        norm_num [belowDists, entryDist, reconstructDescriptor, wPInt, wDist,
          MATCH_THRESHOLD, List.mergeSort, List.filterMap, wRoster, List.lookup]])
    (by simp)
    (by intro x hx; rw [List.mem_singleton.1 hx])


theorem pairwise_lt_perm_eq (f : String → Int) :
    ∀ (l₁ l₂ : List String), l₁.Perm l₂ →
      l₁.Pairwise (fun a b => f a < f b) → l₂.Pairwise (fun a b => f a < f b) →
      l₁ = l₂ := by
  intro l₁
  induction l₁ with
  | nil =>
      intro l₂ hp _ _
      exact (hp.symm.eq_nil).symm
  | cons a t ih =>
      intro l₂ hp h1 h2
      cases l₂ with
      | nil => exact absurd hp.eq_nil (by simp)
      | cons b t₂ =>
          have hab : a = b := by
            by_contra hne
            have hamem : a ∈ t₂ := by
              rcases List.mem_cons.1 (hp.mem_iff.1 (List.mem_cons_self a t)) with h | h
              · exact absurd h hne
              · exact h
            have hbmem : b ∈ t := by
              rcases List.mem_cons.1 (hp.mem_iff.2 (List.mem_cons_self b t₂)) with h | h
              · exact absurd h.symm hne
              · exact h
            have hfa : f a < f b := (List.pairwise_cons.1 h1).1 b hbmem
            have hfb : f b < f a := (List.pairwise_cons.1 h2).1 a hamem
            exact absurd hfa (not_lt.2 hfb.le)
          subst hab
          rw [ih t₂ hp.cons_inv (List.pairwise_cons.1 h1).2 (List.pairwise_cons.1 h2).2]

theorem lookup_perm (k : String) :
    ∀ {l₁ l₂ : List (String × ℚ)}, l₁.Perm l₂ →
      (l₁.map Prod.fst).Nodup → l₁.lookup k = l₂.lookup k := by
  intro l₁ l₂ hp
  induction hp with
  | nil => intro _; rfl
  | cons x h ih =>
      intro hnd
      by_cases hk : k = x.1
      · simp [List.lookup, hk]
      · have hkb : (k == x.1) = false := by simpa [beq_eq_false_iff_ne] using hk
        simp only [List.lookup, hkb]
        apply ih
        simp only [List.map_cons, List.nodup_cons] at hnd
        exact hnd.2
  | swap x y t =>
      intro hnd
      have hxy : y.1 ≠ x.1 := by
        simp only [List.map_cons, List.nodup_cons, List.mem_cons] at hnd
        intro hcon
        exact hnd.1 (Or.inl hcon)
      have hyx : (y.1 == x.1) = false := by
        simp only [beq_eq_false_iff_ne]
        exact hxy
      have hxyb : (x.1 == y.1) = false := by
        simp only [beq_eq_false_iff_ne]
        exact fun hc => hxy hc.symm
      by_cases hk1 : k = y.1
      · simp [List.lookup, hk1, hyx]
      · have hky : (k == y.1) = false := by simpa [beq_eq_false_iff_ne] using hk1
        by_cases hk2 : k = x.1
        · simp [List.lookup, hky, hk2, hxyb]
        · have hkx : (k == x.1) = false := by simpa [beq_eq_false_iff_ne] using hk2
          simp [List.lookup, hky, hkx]
  | trans h12 h23 ih1 ih2 =>
      intro hnd
      exact (ih1 hnd).trans (ih2 ((h12.map Prod.fst).nodup hnd))

theorem lookup_enumFrom (toStr : Nat → String) (hinj : Function.Injective toStr) :
    ∀ (d : List ℚ) (k i : Nat), i < d.length →
      ((List.enumFrom k d).map (fun p => (toStr p.1, p.2))).lookup (toStr (k + i)) =
        d[i]? := by
  intro d
  induction d with
  | nil => intro k i hi; simp at hi
  | cons v t ih =>
      intro k i hi
      cases i with
      | zero => simp [List.enumFrom, List.lookup]
      | succ j =>
          have hne : (toStr (k + (j + 1)) == toStr k) = false := by
            simp only [beq_eq_false_iff_ne]
            intro hcon
            have := hinj hcon
            omega
          simp only [List.enumFrom, List.map_cons, List.lookup, hne]
          have hkey : k + (j + 1) = (k + 1) + j := by omega
          rw [hkey, ih (k + 1) j (by simpa using hi)]
          simp


/-- C9: serializing a descriptor with descriptorToObject and then
reconstructing it the way findMatchingEmployee does for stored encodings,
by sorting the keys numerically ascending and reading the values along the
sorted keys, restores the original vector in its original index order,
for any insertion or iteration order of the stored map (any permutation of
the association list); toStr and pInt stand for the external toString of
numbers and parseInt, assumed to round trip on canonical decimal keys. -/
theorem claim_C9 (toStr : Nat → String) (pInt : String → Int)
    (hround : ∀ n : Nat, pInt (toStr n) = (n : Int))
    (d : List ℚ) (l : List (String × ℚ))
    (hperm : l.Perm (descriptorToObject toStr d)) :
    reconstructDescriptor pInt l = d := by
  have hinj : Function.Injective toStr := by
    intro a b hab
    have ha := hround a
    rw [hab, hround b] at ha
    exact_mod_cast ha.symm
  have hkeyscanon : (descriptorToObject toStr d).map Prod.fst =
      (List.range d.length).map toStr := by
    rw [descriptorToObject, List.map_map]
    have hc : (Prod.fst ∘ fun p : Nat × ℚ => (toStr p.1, p.2)) = toStr ∘ Prod.fst := rfl
    rw [hc, ← List.map_map, List.enum_map_fst]
  have hkeysperm : (l.map Prod.fst).Perm ((List.range d.length).map toStr) := by
    have h := hperm.map Prod.fst
    rwa [hkeyscanon] at h
  have hcanonNodup : ((List.range d.length).map toStr).Nodup :=
    (List.nodup_range d.length).map hinj
  have hlNodup : (l.map Prod.fst).Nodup := hkeysperm.symm.nodup hcanonNodup
  have htrans : ∀ a b c : String, (fun a b => decide (pInt a ≤ pInt b)) a b = true →
      (fun a b => decide (pInt a ≤ pInt b)) b c = true →
      (fun a b => decide (pInt a ≤ pInt b)) a c = true := by
    intro a b c h1 h2
    simp only [decide_eq_true_iff] at h1 h2 ⊢
    exact le_trans h1 h2
  have htotal : ∀ a b : String, ((fun a b => decide (pInt a ≤ pInt b)) a b ||
      (fun a b => decide (pInt a ≤ pInt b)) b a) = true := by
    intro a b
    simp only [Bool.or_eq_true, decide_eq_true_iff]
    exact le_total (pInt a) (pInt b)
  have hsorted : ((l.map Prod.fst).mergeSort
      (fun a b => decide (pInt a ≤ pInt b))).Pairwise (fun a b => pInt a ≤ pInt b) := by
    have h := @List.sorted_mergeSort String (fun a b => decide (pInt a ≤ pInt b))
      htrans htotal (l.map Prod.fst)
    exact h.imp (fun hab => by simpa using hab)
  have hvalsNodup : (((l.map Prod.fst).mergeSort
      (fun a b => decide (pInt a ≤ pInt b))).map pInt).Nodup := by
    have h1 : (((List.range d.length).map toStr).map pInt).Nodup := by
      rw [List.map_map]
      have hc : (pInt ∘ toStr) = fun n : Nat => (n : Int) := funext hround
      rw [hc]
      exact (List.nodup_range d.length).map (fun a b hab => by exact_mod_cast hab)
    have h2 := (List.mergeSort_perm (l.map Prod.fst)
      (fun a b => decide (pInt a ≤ pInt b))).trans hkeysperm
    exact (h2.map pInt).symm.nodup h1
  have hsortedlt : ((l.map Prod.fst).mergeSort
      (fun a b => decide (pInt a ≤ pInt b))).Pairwise (fun a b => pInt a < pInt b) := by
    have hne := (List.pairwise_map).1 hvalsNodup
    exact (hsorted.and hne).imp (fun hab => lt_of_le_of_ne hab.1 hab.2)
  have hcanonlt : ((List.range d.length).map toStr).Pairwise
      (fun a b => pInt a < pInt b) := by
    rw [List.pairwise_map]
    refine (List.pairwise_lt_range d.length).imp ?_
    intro a b hab
    rw [hround a, hround b]
    exact_mod_cast hab
  have hkeys : (l.map Prod.fst).mergeSort (fun a b => decide (pInt a ≤ pInt b)) =
      (List.range d.length).map toStr :=
    pairwise_lt_perm_eq pInt _ _
      ((List.mergeSort_perm _ _).trans hkeysperm) hsortedlt hcanonlt
  rw [reconstructDescriptor, hkeys, List.map_map]
  apply List.ext_getElem
  · simp
  · intro i h1 h2
    simp only [List.getElem_map, List.getElem_range, Function.comp_apply]
    have hlook : l.lookup (toStr i) = d[i]? := by
      rw [lookup_perm (toStr i) hperm hlNodup]
      have h := lookup_enumFrom toStr hinj d 0 i (by simpa using h2)
      simpa [descriptorToObject, List.enum] using h
    rw [hlook, List.getElem?_eq_getElem (by simpa using h2)]
    rfl


/-- C9 witness: a two element descriptor stored with its key value pairs
in reversed order is reconstructed in original index order. -/
theorem claim_C9_witness :
    reconstructDescriptor wPInt [(wToStr 1, 7), (wToStr 0, 5)] = [5, 7] :=
  claim_C9 wToStr wPInt (fun n => by simp [wPInt, wToStr]) [5, 7]
    [(wToStr 1, 7), (wToStr 0, 5)]
    (by
      rw [show descriptorToObject wToStr [5, 7] = [(wToStr 0, 5), (wToStr 1, 7)] from by
        simp [descriptorToObject, List.enum, List.enumFrom]]
      exact List.Perm.swap _ _ _)

/-- C7 witness: the theorem instantiated at the concrete detection wDet
with the concrete stand-ins for Math.sqrt and Math.atan2. -/
theorem claim_C7_witness :
    calculateQualityScore wSqrt wAtan2 wDet =
      min (wDet.score * sizeFactor wDet *
        (if eyeTiltAngle wAtan2 wDet > 0.2 then 0.7 else 1) *
        (if noseOffset wDet > eyeDistance wSqrt wDet * 0.3 then 0.6 else 1)) 1 ∧
    calculateQualityScore wSqrt wAtan2 wDet ≤ min (wDet.score * sizeFactor wDet) 1 :=
  claim_C7 wSqrt wAtan2 wDet (by norm_num [wDet]) (by norm_num [wDet]) (by norm_num [wDet])

end FaceDetection
